import Mathlib

/-!
Shallow embedding of the pcgs-database task-queue / coin-store subsystem
(`src/pcgs_database/database.py`, `src/pcgs_database/scheduler.py`,
`src/pcgs_database/routers/tasks.py`).

The SQLite tables are modelled as Lean lists kept in rowid (insertion)
order; `AUTOINCREMENT` is modelled by a `nextId` counter, and the wall
clock (`CURRENT_TIMESTAMP` / `datetime.now().isoformat()`) is modelled by
an explicit `now : Nat` argument supplied by the environment at each
operation.  SQL `UPDATE ... WHERE id = ?` becomes a `List.map` that
rewrites every row matching the id; `DELETE ... WHERE p` becomes a
`List.filter` keeping the rows where `p` fails; `SELECT ... ORDER BY
created_at ASC LIMIT 1` becomes a stable minimum over the scan order
(SQLite scans the table in rowid order, keeping the first row among
equal `created_at` keys).
-/

namespace Pcgs

/-- Task status column: the string values 'pending', 'running',
'completed', 'failed' used by `database.py`. -/
inductive Status where
  | pending
  | running
  | completed
  | failed
deriving DecidableEq

/-- One row of the `tasks` table created by `init_db`. -/
structure Task where
  id : Nat
  cert_number : String
  status : Status
  error_message : Option String
  created_at : Nat
  started_at : Option Nat
  completed_at : Option Nat
deriving DecidableEq

/-- The `tasks` table: rows in rowid order plus the AUTOINCREMENT counter. -/
structure TaskState where
  nextId : Nat
  rows : List Task
deriving DecidableEq

/-- Fresh database: empty table, AUTOINCREMENT starts at 1. -/
def initTaskState : TaskState := { nextId := 1, rows := [] }

/-- `add_task(cert_number)`: INSERT INTO tasks (cert_number, status)
VALUES (?, 'pending'); returns `cursor.lastrowid`.  The remaining columns
take their defaults: `created_at = CURRENT_TIMESTAMP` (the `now`
argument), `error_message`, `started_at`, `completed_at` NULL. -/
def add_task (cert_number : String) (now : Nat) (s : TaskState) : Nat × TaskState :=
  let t : Task :=
    { id := s.nextId, cert_number := cert_number, status := Status.pending,
      error_message := none, created_at := now, started_at := none, completed_at := none }
  (s.nextId, { nextId := s.nextId + 1, rows := s.rows ++ [t] })

/-- `add_tasks_batch(cert_numbers)`: the loop in `database.py` that runs
the same INSERT for `cert_number.strip()` of each element and collects
`cursor.lastrowid` in order. -/
def add_tasks_batch (cert_numbers : List String) (now : Nat) (s : TaskState) :
    List Nat × TaskState :=
  cert_numbers.foldl
    (fun acc c =>
      let r := add_task c.trim now acc.2
      (acc.1 ++ [r.1], r.2))
    ([], s)

/-- One step of the scan behind SELECT * FROM tasks WHERE status =
'pending' ORDER BY created_at ASC LIMIT 1: keep the best row so far,
replacing it only when a strictly smaller `created_at` appears, so the
first row in rowid order wins among ties. -/
def selStep (best : Option Task) (r : Task) : Option Task :=
  if r.status = Status.pending then
    match best with
    | none => some r
    | some b => if r.created_at < b.created_at then some r else some b
  else best

/-- The SELECT of `get_pending_task`: oldest pending row in scan order. -/
def selectOldestPending (rows : List Task) : Option Task :=
  rows.foldl selStep none

/-- The UPDATE of `get_pending_task`: SET status = 'running', started_at
= ? WHERE id = ?. -/
def markRunning (taskId : Nat) (now : Nat) (r : Task) : Task :=
  if r.id = taskId then { r with status := Status.running, started_at := some now } else r

/-- `get_pending_task()`: select the oldest pending row; if one exists,
mark that row running with `started_at = now` and return the row as read
(the returned dict is the pre-update snapshot); otherwise return None and
leave the table unchanged. -/
def get_pending_task (now : Nat) (s : TaskState) : Option Task × TaskState :=
  match selectOldestPending s.rows with
  | some t => (some t, { s with rows := s.rows.map (markRunning t.id now) })
  | none => (none, s)

/-- `complete_task(task_id, success, error_message)`: UPDATE tasks SET
status = ?, error_message = ?, completed_at = ? WHERE id = ?, where
status is 'completed' when success else 'failed'. -/
def complete_task (task_id : Nat) (success : Bool) (error_message : Option String)
    (now : Nat) (s : TaskState) : TaskState :=
  let st := if success then Status.completed else Status.failed
  { s with
    rows := s.rows.map (fun r =>
      if r.id = task_id then
        { r with status := st, error_message := error_message, completed_at := some now }
      else r) }

/-- `delete_task(task_id)`: DELETE FROM tasks WHERE id = ?; returns
`cursor.rowcount > 0`. -/
def delete_task (task_id : Nat) (s : TaskState) : Bool × TaskState :=
  let remaining := s.rows.filter (fun r => r.id ≠ task_id)
  (remaining.length < s.rows.length, { s with rows := remaining })

/-- The predicate of DELETE FROM tasks WHERE status IN ('completed',
'failed'). -/
def isTerminal : Status → Bool
  | Status.completed => true
  | Status.failed => true
  | _ => false

/-- `clear_completed_tasks()`: delete every completed/failed row and
return `cursor.rowcount`, the number of rows removed. -/
def clear_completed_tasks (s : TaskState) : Nat × TaskState :=
  ((s.rows.filter (fun r => isTerminal r.status)).length,
   { s with rows := s.rows.filter (fun r => !isTerminal r.status) })

/-- `create_tasks_batch` in `routers/tasks.py`: strip every id, drop the
ones that strip to the empty string, answer HTTP 400 (an error, nothing
inserted) when none survive, and otherwise call `add_tasks_batch` on the
survivors. -/
def create_tasks_batch (cert_numbers : List String) (now : Nat) (s : TaskState) :
    Except String (List Nat × TaskState) :=
  let stripped := (cert_numbers.map String.trim).filter (fun c => c ≠ "")
  if stripped.isEmpty then Except.error "证书号列表不能为空"
  else Except.ok (add_tasks_batch stripped now s)

/-- The dictionary handed to `save_coin`: exactly the keys the INSERT in
`save_coin` reads with `.get`, each absent key modelled as `none`. -/
structure CoinData where
  cert_number : Option String
  pcgs_num : Option String
  grade : Option String
  date_mintmark : Option String
  denomination : Option String
  price_guide_value : Option String
  population : Option String
  pop_higher : Option String
  mintage : Option String
  variety : Option String
  region : Option String
  holder_type : Option String
  security : Option String
  image_urls : List String
  saved_images : List String
deriving DecidableEq

/-- One JSON key/value pair for an optional string field. -/
def jsonField (key : String) : Option String → String
  | none => "\"" ++ key ++ "\": null"
  | some v => "\"" ++ key ++ "\": \"" ++ v ++ "\""

/-- One JSON key/value pair for a string-list field. -/
def jsonList (key : String) (vs : List String) : String :=
  "\"" ++ key ++ "\": [" ++ String.intercalate ", " (vs.map (fun v => "\"" ++ v ++ "\"")) ++ "]"

/-- Model of `json.dumps(coin_data, ensure_ascii=False)`: a deterministic
serialization of the whole payload, stored as the raw snapshot. -/
def json_dumps (d : CoinData) : String :=
  "\x7b" ++ String.intercalate ", "
    [jsonField "cert_number" d.cert_number,
     jsonField "pcgs_#" d.pcgs_num,
     jsonField "grade" d.grade,
     jsonField "date,_mintmark" d.date_mintmark,
     jsonField "denomination" d.denomination,
     jsonField "price_guide_value" d.price_guide_value,
     jsonField "population" d.population,
     jsonField "pop_higher" d.pop_higher,
     jsonField "mintage" d.mintage,
     jsonField "variety" d.variety,
     jsonField "region" d.region,
     jsonField "holder_type" d.holder_type,
     jsonField "security" d.security,
     jsonList "image_urls" d.image_urls,
     jsonList "saved_images" d.saved_images] ++ "\x7d"

/-- One row of the `coins` table created by `init_db`. -/
structure Coin where
  id : Nat
  cert_number : String
  pcgs_number : Option String
  grade : Option String
  date_mintmark : Option String
  denomination : Option String
  price_guide_value : Option String
  population : Option String
  pop_higher : Option String
  mintage : Option String
  variety : Option String
  region : Option String
  holder_type : Option String
  security : Option String
  image_url : Option String
  local_image_path : Option String
  raw_data : String
  created_at : Nat
  updated_at : Nat
deriving DecidableEq

/-- The `coins` table: rows in rowid order plus the AUTOINCREMENT counter. -/
structure CoinState where
  nextId : Nat
  rows : List Coin
deriving DecidableEq

/-- Fresh database: empty table, AUTOINCREMENT starts at 1. -/
def initCoinState : CoinState := { nextId := 1, rows := [] }

/-- `save_coin(coin_data)`: INSERT OR REPLACE INTO coins ... keyed by the
UNIQUE `cert_number` column.  On conflict SQLite deletes the old row and
inserts a fresh one, so the new row gets a fresh AUTOINCREMENT id and a
fresh `created_at = CURRENT_TIMESTAMP`; `updated_at` is the
`datetime.now().isoformat()` bound in the statement.  The whole statement
runs inside try/except: any storage failure (modelled by `storageOk =
false`), as well as the NOT NULL violation when the payload has no
`cert_number`, is caught and logged and the function returns False with
the table unchanged — it never raises to its caller. -/
def save_coin (storageOk : Bool) (coin_data : CoinData) (now : Nat) (s : CoinState) :
    Bool × CoinState :=
  match storageOk, coin_data.cert_number with
  | true, some cert =>
    let row : Coin :=
      { id := s.nextId, cert_number := cert,
        pcgs_number := coin_data.pcgs_num, grade := coin_data.grade,
        date_mintmark := coin_data.date_mintmark, denomination := coin_data.denomination,
        price_guide_value := coin_data.price_guide_value, population := coin_data.population,
        pop_higher := coin_data.pop_higher, mintage := coin_data.mintage,
        variety := coin_data.variety, region := coin_data.region,
        holder_type := coin_data.holder_type, security := coin_data.security,
        image_url := coin_data.image_urls.head?,
        local_image_path := coin_data.saved_images.head?,
        raw_data := json_dumps coin_data, created_at := now, updated_at := now }
    (true,
     { nextId := s.nextId + 1,
       rows := s.rows.filter (fun r => r.cert_number ≠ cert) ++ [row] })
  | _, _ => (false, s)

/-- `delete_coin(cert_number)`: DELETE FROM coins WHERE cert_number = ?;
returns `cursor.rowcount > 0`. -/
def delete_coin (cert_number : String) (s : CoinState) : Bool × CoinState :=
  let remaining := s.rows.filter (fun r => r.cert_number ≠ cert_number)
  (remaining.length < s.rows.length, { s with rows := remaining })

/-- Stable descending insertion by `created_at` (an earlier-scanned row
stays in front of a later row with the same key). -/
def insertByCreatedDesc (c : Coin) : List Coin → List Coin
  | [] => [c]
  | x :: xs =>
    if c.created_at > x.created_at then c :: x :: xs else x :: insertByCreatedDesc c xs

/-- Sort by `created_at` descending. -/
def sortByCreatedDesc : List Coin → List Coin
  | [] => []
  | x :: xs => insertByCreatedDesc x (sortByCreatedDesc xs)

/-- `get_all_coins()`: SELECT * FROM coins ORDER BY created_at DESC. -/
def get_all_coins (s : CoinState) : List Coin :=
  sortByCreatedDesc s.rows

/-- `TaskScheduler._process_next_task`: claim the next pending task; if
there is none, return.  Otherwise run the try block: `fetch_pcgs_cert`
(the external collaborator, modelled as a function returning `Except`
with `str(e)` of any raised error), then `save_coin` (result ignored),
then `complete_task(task_id, success=True)`.  Any error raised by the
fetch is caught by the except clause, which runs
`complete_task(task_id, success=False, error_message=str(e))`.  The
function itself is total: no error escapes to the caller. -/
def processNextTask (fetch : String → Except String CoinData) (storageOk : Bool) (now : Nat)
    (ts : TaskState) (cs : CoinState) : TaskState × CoinState :=
  match get_pending_task now ts with
  | (none, ts') => (ts', cs)
  | (some task, ts') =>
    match fetch task.cert_number with
    | Except.ok coin_data =>
      let saved := save_coin storageOk coin_data now cs
      (complete_task task.id true none now ts', saved.2)
    | Except.error e =>
      (complete_task task.id false (some e) now ts', cs)

/-- `TaskScheduler._run`: the poll loop, one `_process_next_task` call
per iteration (the list supplies the wall-clock time of each iteration);
since `processNextTask` is total, the try/except around it in `_run`
catches nothing in the model and every iteration hands its state to the
next one. -/
def schedulerRun (fetch : String → Except String CoinData) (storageOk : Bool) :
    List Nat → TaskState × CoinState → TaskState × CoinState
  | [], st => st
  | now :: rest, st =>
    schedulerRun fetch storageOk rest (processNextTask fetch storageOk now st.1 st.2)

/-- The Task Store operations an external caller can issue, used to
describe the states reachable through the store interface. -/
inductive TaskOp where
  | enqueue (cert_number : String)
  | claim
  | complete (task_id : Nat) (success : Bool) (error_message : Option String)
  | delete (task_id : Nat)
  | clearTerminal
deriving DecidableEq

/-- Run a list of timed Task Store operations, collecting the tasks
returned by the `claim` calls in order. -/
def runOps : List (TaskOp × Nat) → TaskState → TaskState × List Task
  | [], s => (s, [])
  | (TaskOp.enqueue c, now) :: rest, s => runOps rest (add_task c now s).2
  | (TaskOp.claim, now) :: rest, s =>
    match get_pending_task now s with
    | (none, s') => runOps rest s'
    | (some t, s') =>
      let res := runOps rest s'
      (res.1, t :: res.2)
  | (TaskOp.complete i b e, now) :: rest, s => runOps rest (complete_task i b e now s)
  | (TaskOp.delete i, _) :: rest, s => runOps rest (delete_task i s).2
  | (TaskOp.clearTerminal, _) :: rest, s => runOps rest (clear_completed_tasks s).2

/-- Operations that only touch the queue — the enqueue/claim fragment. -/
def isQueueOp : TaskOp → Bool
  | TaskOp.enqueue _ => true
  | TaskOp.claim => true
  | _ => false

/-- Coin Store operations an external caller can issue. -/
inductive CoinOp where
  | save (storageOk : Bool) (coin_data : CoinData) (now : Nat)
  | delete (cert_number : String)

/-- Run a list of Coin Store operations. -/
def runCoinOps : List CoinOp → CoinState → CoinState
  | [], s => s
  | CoinOp.save ok d now :: rest, s => runCoinOps rest (save_coin ok d now s).2
  | CoinOp.delete c :: rest, s => runCoinOps rest (delete_coin c s).2

/-- Specification of `clear_completed_tasks` (claim C9): it returns
exactly the number of completed/failed rows, the surviving table is
exactly the non-terminal rows in their original order, the count and the
survivors partition the table, every pending/running row survives
unchanged, every terminal row is gone, no row is invented, and the
AUTOINCREMENT counter is untouched. -/
def ClearTerminalSpec (s : TaskState) : Prop :=
  (clear_completed_tasks s).1 =
      (s.rows.filter (fun r => isTerminal r.status)).length ∧
  (clear_completed_tasks s).2.rows = s.rows.filter (fun r => !isTerminal r.status) ∧
  (clear_completed_tasks s).1 + (clear_completed_tasks s).2.rows.length = s.rows.length ∧
  (∀ r ∈ s.rows, (r.status = Status.pending ∨ r.status = Status.running) →
      r ∈ (clear_completed_tasks s).2.rows) ∧
  (∀ r ∈ s.rows, (r.status = Status.completed ∨ r.status = Status.failed) →
      r ∉ (clear_completed_tasks s).2.rows) ∧
  (∀ r ∈ (clear_completed_tasks s).2.rows, r ∈ s.rows) ∧
  (clear_completed_tasks s).2.nextId = s.nextId

/-- Specification of `complete_task` (claim C5): completing with
success=true stamps `completed`/`completed_at` and nulls the error;
completing with success=false and a message stamps `failed` with that
message; completing the same id twice just re-stamps (the second call
overwrites everything the first one wrote). -/
def CompleteSpec (s : TaskState) (task_id : Nat) (now now' : Nat) (msg : String) : Prop :=
  (∃ r ∈ (complete_task task_id true none now s).rows, r.id = task_id) ∧
  (∀ r ∈ (complete_task task_id true none now s).rows, r.id = task_id →
      r.status = Status.completed ∧ r.completed_at = some now ∧ r.error_message = none) ∧
  (∀ r ∈ (complete_task task_id false (some msg) now s).rows, r.id = task_id →
      r.status = Status.failed ∧ r.error_message = some msg ∧ r.completed_at = some now) ∧
  (∀ succ₁ e₁ succ₂ e₂,
      complete_task task_id succ₂ e₂ now' (complete_task task_id succ₁ e₁ now s) =
      complete_task task_id succ₂ e₂ now' s)

/-- Concrete table used to witness claim C9. -/
def cw9 : TaskState :=
  { nextId := 5,
    rows :=
      [{ id := 1, cert_number := "A", status := Status.completed, error_message := none,
         created_at := 0, started_at := some 1, completed_at := some 2 },
       { id := 2, cert_number := "B", status := Status.pending, error_message := none,
         created_at := 1, started_at := none, completed_at := none },
       { id := 3, cert_number := "C", status := Status.failed, error_message := some "boom",
         created_at := 2, started_at := some 3, completed_at := some 4 },
       { id := 4, cert_number := "D", status := Status.running, error_message := none,
         created_at := 3, started_at := some 4, completed_at := none }] }

/-- Concrete table used to witness claim C5. -/
def cw5 : TaskState :=
  { nextId := 3,
    rows :=
      [{ id := 1, cert_number := "A", status := Status.pending, error_message := none,
         created_at := 0, started_at := none, completed_at := none },
       { id := 2, cert_number := "B", status := Status.running, error_message := none,
         created_at := 1, started_at := some 2, completed_at := none }] }

/-- Specification for claim C3, about a poll iteration that claimed task
`t` and whose fetch raised an error with text `msg`: the coin table is
untouched, task `t` still exists and is now `failed` with `error_message
= msg` and `completed_at` stamped, and the loop hands the resulting
state to its next iteration — the error is not loop-fatal. -/
def FetchErrorSpec (fetch : String → Except String CoinData) (storageOk : Bool) (now : Nat)
    (ts : TaskState) (cs : CoinState) (t : Task) (msg : String) : Prop :=
  (processNextTask fetch storageOk now ts cs).2 = cs ∧
  (∃ r ∈ (processNextTask fetch storageOk now ts cs).1.rows, r.id = t.id) ∧
  (∀ r ∈ (processNextTask fetch storageOk now ts cs).1.rows, r.id = t.id →
      r.status = Status.failed ∧ r.error_message = some msg ∧ r.completed_at = some now) ∧
  (∀ (rest : List Nat) (now' : Nat) (st : TaskState × CoinState),
      schedulerRun fetch storageOk (now' :: rest) st =
      schedulerRun fetch storageOk rest (processNextTask fetch storageOk now' st.1 st.2))

/-- Specification for claim C4, about a poll iteration that claimed task
`t`, whose fetch succeeded, and whose `save_coin` hit a storage failure:
`save_coin` reports failure by returning false with the coin table
unchanged (it is a total function — it never raises), and the task is
nevertheless marked completed with no error message. -/
def UpsertFailureSpec (fetch : String → Except String CoinData) (now : Nat)
    (ts : TaskState) (cs : CoinState) (t : Task) : Prop :=
  (∀ (d : CoinData) (now' : Nat) (cs' : CoinState),
      save_coin false d now' cs' = (false, cs')) ∧
  (processNextTask fetch false now ts cs).2 = cs ∧
  (∃ r ∈ (processNextTask fetch false now ts cs).1.rows, r.id = t.id) ∧
  (∀ r ∈ (processNextTask fetch false now ts cs).1.rows, r.id = t.id →
      r.status = Status.completed ∧ r.completed_at = some now ∧ r.error_message = none)

/-- Concrete one-task table used to witness claim C3. -/
def cw3State : TaskState :=
  { nextId := 2,
    rows :=
      [{ id := 1, cert_number := "A", status := Status.pending, error_message := none,
         created_at := 0, started_at := none, completed_at := none }] }

/-- Concrete fetch collaborator for the C3 witness: always raises
"timeout". -/
def cw3Fetch : String → Except String CoinData := fun _ => Except.error "timeout"

/-- Concrete one-task table used to witness claim C4. -/
def cw4State : TaskState :=
  { nextId := 2,
    rows :=
      [{ id := 1, cert_number := "A", status := Status.pending, error_message := none,
         created_at := 0, started_at := none, completed_at := none }] }

/-- Concrete payload returned by the C4 witness fetch. -/
def cw4Data : CoinData :=
  { cert_number := some "A", pcgs_num := none, grade := some "MS65", date_mintmark := none,
    denomination := none, price_guide_value := none, population := none, pop_higher := none,
    mintage := none, variety := none, region := none, holder_type := none, security := none,
    image_urls := [], saved_images := [] }

/-- Concrete fetch collaborator for the C4 witness: always succeeds. -/
def cw4Fetch : String → Except String CoinData := fun _ => Except.ok cw4Data

/-- The consecutive ids AUTOINCREMENT hands out starting at `start`. -/
def idsFrom (start : Nat) : Nat → List Nat
  | 0 => []
  | n + 1 => start :: idsFrom (start + 1) n

/-- The rows `add_tasks_batch` inserts for the given cert ids: one fresh
pending row per id, ids consecutive from `start`, all stamped with the
same `created_at = now`. -/
def mkRows (start : Nat) (now : Nat) : List String → List Task
  | [] => []
  | c :: cs =>
    { id := start, cert_number := c.trim, status := Status.pending, error_message := none,
      created_at := now, started_at := none, completed_at := none } :: mkRows (start + 1) now cs

/-- Specification for claim C7: the batch endpoint answers an error (and
inserts nothing) when every input id trims to empty; otherwise it inserts
exactly one pending row per trimmed non-empty input id, appended in
input order, and returns the matching consecutive task ids in that same
order. -/
def BatchSpec (cert_numbers : List String) (now : Nat) (s : TaskState) : Prop :=
  ((cert_numbers.map String.trim).filter (fun c => c ≠ "") = [] →
      create_tasks_batch cert_numbers now s = Except.error "证书号列表不能为空") ∧
  (∀ ids s', create_tasks_batch cert_numbers now s = Except.ok (ids, s') →
      ids = idsFrom s.nextId ((cert_numbers.map String.trim).filter (fun c => c ≠ "")).length ∧
      ids.length = ((cert_numbers.map String.trim).filter (fun c => c ≠ "")).length ∧
      s'.nextId = s.nextId + ((cert_numbers.map String.trim).filter (fun c => c ≠ "")).length ∧
      s'.rows = s.rows ++
        mkRows s.nextId now ((cert_numbers.map String.trim).filter (fun c => c ≠ "")))

/-- Concrete batch input used to witness claim C7. -/
def cw7Input : List String := ["  A ", " ", "B", ""]

/-- Concrete table used to witness claim C7. -/
def cw7State : TaskState :=
  { nextId := 4,
    rows :=
      [{ id := 3, cert_number := "Z", status := Status.running, error_message := none,
         created_at := 0, started_at := some 1, completed_at := none }] }

/-- The row the INSERT OR REPLACE in `save_coin` writes: fresh
AUTOINCREMENT id, all payload columns, the serialized raw snapshot, and
fresh `created_at`/`updated_at` timestamps. -/
def coinRow (d : CoinData) (cert : String) (id now : Nat) : Coin :=
  { id := id, cert_number := cert, pcgs_number := d.pcgs_num, grade := d.grade,
    date_mintmark := d.date_mintmark, denomination := d.denomination,
    price_guide_value := d.price_guide_value, population := d.population,
    pop_higher := d.pop_higher, mintage := d.mintage, variety := d.variety,
    region := d.region, holder_type := d.holder_type, security := d.security,
    image_url := d.image_urls.head?, local_image_path := d.saved_images.head?,
    raw_data := json_dumps d, created_at := now, updated_at := now }

/-- The UNIQUE constraint on `coins.cert_number`: no two rows share a
cert id. -/
def CertUnique (s : CoinState) : Prop :=
  s.rows.Pairwise (fun a b => a.cert_number ≠ b.cert_number)

/-- Specification for claim C6: every table reachable through the Coin
Store operations keeps at most one row per cert id, and upserting the
same cert twice leaves exactly one row for it, carrying the second
payload's values in full — every scraped column, the image references,
and the raw snapshot. -/
def UpsertTwiceSpec (ops : List CoinOp) (s : CoinState) (d₁ d₂ : CoinData)
    (cert : String) (now₁ now₂ : Nat) : Prop :=
  CertUnique (runCoinOps ops initCoinState) ∧
  ((save_coin true d₂ now₂ (save_coin true d₁ now₁ s).2).2.rows.filter
      (fun r => r.cert_number = cert)).length = 1 ∧
  (∀ r ∈ (save_coin true d₂ now₂ (save_coin true d₁ now₁ s).2).2.rows,
      r.cert_number = cert →
      r.pcgs_number = d₂.pcgs_num ∧ r.grade = d₂.grade ∧
      r.date_mintmark = d₂.date_mintmark ∧ r.denomination = d₂.denomination ∧
      r.price_guide_value = d₂.price_guide_value ∧ r.population = d₂.population ∧
      r.pop_higher = d₂.pop_higher ∧ r.mintage = d₂.mintage ∧ r.variety = d₂.variety ∧
      r.region = d₂.region ∧ r.holder_type = d₂.holder_type ∧ r.security = d₂.security ∧
      r.image_url = d₂.image_urls.head? ∧ r.local_image_path = d₂.saved_images.head? ∧
      r.raw_data = json_dumps d₂ ∧ r.updated_at = now₂)

/-- Specification for claim C10: a successful upsert over an existing
cert does not update the old row in place — the old row object is gone,
the surviving row for that cert has the fresh AUTOINCREMENT id (different
from every pre-existing id) and a fresh `created_at`, and it sorts to the
front of `get_all_coins`' newest-created-first ordering. -/
def ReplaceNotUpdateSpec (s : CoinState) (d : CoinData) (cert : String) (now : Nat) : Prop :=
  (save_coin true d now s).1 = true ∧
  (∀ old ∈ s.rows, old.cert_number = cert → old ∉ (save_coin true d now s).2.rows) ∧
  (∀ r ∈ (save_coin true d now s).2.rows, r.cert_number = cert →
      r.id = s.nextId ∧ r.created_at = now ∧ ∀ old ∈ s.rows, r.id ≠ old.id) ∧
  (∃ r, (get_all_coins (save_coin true d now s).2).head? = some r ∧
      r.cert_number = cert ∧ r.id = s.nextId ∧ r.created_at = now)

/-- First payload of the C6 witness. -/
def cw6Data1 : CoinData :=
  { cert_number := some "A", pcgs_num := some "111", grade := some "MS64",
    date_mintmark := none, denomination := none, price_guide_value := none,
    population := none, pop_higher := none, mintage := none, variety := none,
    region := none, holder_type := none, security := none,
    image_urls := ["u1"], saved_images := [] }

/-- Second payload of the C6 witness: same cert, different values. -/
def cw6Data2 : CoinData :=
  { cert_number := some "A", pcgs_num := some "222", grade := some "MS65",
    date_mintmark := none, denomination := none, price_guide_value := none,
    population := none, pop_higher := none, mintage := none, variety := none,
    region := none, holder_type := none, security := none,
    image_urls := [], saved_images := ["p1"] }

/-- Operation list for the C6 invariant witness. -/
def cw6Ops : List CoinOp :=
  [CoinOp.save true cw6Data1 0, CoinOp.save true cw6Data2 1, CoinOp.delete "X"]

/-- Payload of the C10 witness. -/
def cw10Data : CoinData :=
  { cert_number := some "A", pcgs_num := none, grade := some "MS66", date_mintmark := none,
    denomination := none, price_guide_value := none, population := none, pop_higher := none,
    mintage := none, variety := none, region := none, holder_type := none, security := none,
    image_urls := [], saved_images := [] }

/-- Coin table of the C10 witness: the cert is already stored. -/
def cw10State : CoinState :=
  { nextId := 3,
    rows :=
      [{ id := 1, cert_number := "A", pcgs_number := none, grade := some "MS64",
         date_mintmark := none, denomination := none, price_guide_value := none,
         population := none, pop_higher := none, mintage := none, variety := none,
         region := none, holder_type := none, security := none, image_url := none,
         local_image_path := none, raw_data := "old", created_at := 0, updated_at := 0 },
       { id := 2, cert_number := "B", pcgs_number := none, grade := none,
         date_mintmark := none, denomination := none, price_guide_value := none,
         population := none, pop_higher := none, mintage := none, variety := none,
         region := none, holder_type := none, security := none, image_url := none,
         local_image_path := none, raw_data := "old2", created_at := 1, updated_at := 1 }] }

/-- Specification for claim C1: when no pending row exists,
`get_pending_task` returns none and changes nothing; when one does, it
returns a pending row whose `created_at` is minimal among pending rows,
with the lowest id among equal `created_at` (SQLite scans in rowid
order), and the only change to the table is that exact row transitioning
to running with `started_at = now`. -/
def ClaimNextSpec (s : TaskState) (now : Nat) : Prop :=
  (∀ s₂, get_pending_task now s = (none, s₂) →
      s₂ = s ∧ ∀ r ∈ s.rows, r.status ≠ Status.pending) ∧
  (∀ t s₂, get_pending_task now s = (some t, s₂) →
      t.status = Status.pending ∧
      (∀ r ∈ s.rows, r.status = Status.pending → t.created_at ≤ r.created_at) ∧
      (∀ r ∈ s.rows, r.status = Status.pending → r.created_at = t.created_at →
          t.id ≤ r.id) ∧
      s₂.nextId = s.nextId ∧
      (∃ l₁ l₂, s.rows = l₁ ++ t :: l₂ ∧
          s₂.rows = l₁ ++
            { t with status := Status.running, started_at := some now } :: l₂))

/-- Concrete table used to witness claim C1: one terminal row and two
pending rows with equal `created_at`, exercising the id tie-break. -/
def cw1State : TaskState :=
  { nextId := 4,
    rows :=
      [{ id := 1, cert_number := "A", status := Status.completed, error_message := none,
         created_at := 0, started_at := some 1, completed_at := some 2 },
       { id := 2, cert_number := "B", status := Status.pending, error_message := none,
         created_at := 5, started_at := none, completed_at := none },
       { id := 3, cert_number := "C", status := Status.pending, error_message := none,
         created_at := 5, started_at := none, completed_at := none }] }

/-- The argument discipline every `complete_task` call site in this
codebase follows: a success completion never carries an error message
(the scheduler calls `complete_task(id, success=True)` with the default
`error_message=None`). -/
def opWellFormed : TaskOp → Bool
  | TaskOp.complete _ success err => !success || err.isNone
  | _ => true

/-- The per-row field invariant of claim C8, as a state property: an
error message only on failed rows, `started_at` only once the row has
left pending (it is set only by the claim transition), `completed_at`
only on completed/failed rows (set only by the complete transition). -/
def RowOK (r : Task) : Prop :=
  (r.error_message ≠ none → r.status = Status.failed) ∧
  (r.started_at ≠ none → r.status ≠ Status.pending) ∧
  (r.completed_at ≠ none → (r.status = Status.completed ∨ r.status = Status.failed))

/-- Structural invariant of the tasks table: ids strictly increase in
rowid order and stay below the AUTOINCREMENT counter. -/
def IdInv (s : TaskState) : Prop :=
  s.rows.Pairwise (fun a b => a.id < b.id) ∧ ∀ r ∈ s.rows, r.id < s.nextId

/-- Counterexample trace for claim C8 as literally stated: the store
operation `complete(1, success=true, error_message="oops")` stores the
message on a row whose status becomes `completed`, not `failed`. -/
def cx8Trace : List (TaskOp × Nat) :=
  [(TaskOp.enqueue "A", 0), (TaskOp.complete 1 true (some "oops"), 1)]

/-- Well-formed trace exercising every operation, used to witness the
amended claim C8. -/
def cw8Trace : List (TaskOp × Nat) :=
  [(TaskOp.enqueue "A", 0), (TaskOp.enqueue "B", 1), (TaskOp.claim, 2),
   (TaskOp.complete 1 false (some "boom"), 3), (TaskOp.claim, 4),
   (TaskOp.complete 2 true none, 5), (TaskOp.clearTerminal, 6),
   (TaskOp.enqueue "C", 7), (TaskOp.delete 3, 8)]

/-- Concrete enqueue/claim trace with nondecreasing wall-clock times
(including equal-timestamp enqueues), used to witness claim C2. -/
def cw2Trace : List (TaskOp × Nat) :=
  [(TaskOp.enqueue "A", 0), (TaskOp.enqueue "B", 0), (TaskOp.claim, 1),
   (TaskOp.claim, 1), (TaskOp.claim, 2), (TaskOp.enqueue "C", 2), (TaskOp.claim, 3)]

theorem selStep_not_pending {acc : Option Task} {r : Task}
    (hp : ¬ r.status = Status.pending) : selStep acc r = acc := by
  simp [selStep, hp]

theorem selStep_none {r : Task} (hp : r.status = Status.pending) :
    selStep none r = some r := by
  simp [selStep, hp]

theorem selStep_some_lt {b r : Task} (hp : r.status = Status.pending)
    (hlt : r.created_at < b.created_at) : selStep (some b) r = some r := by
  simp [selStep, hp, hlt]

theorem selStep_some_ge {b r : Task} (hp : r.status = Status.pending)
    (hlt : ¬ r.created_at < b.created_at) : selStep (some b) r = some b := by
  simp [selStep, hp, hlt]

theorem sel_foldl_mem : ∀ (rows : List Task) (acc : Option Task) (t : Task),
    rows.foldl selStep acc = some t →
    acc = some t ∨ (t ∈ rows ∧ t.status = Status.pending) := by
  intro rows
  induction rows with
  | nil => intro acc t h; exact Or.inl h
  | cons r rest ih =>
    intro acc t h
    rw [List.foldl_cons] at h
    rcases ih (selStep acc r) t h with h1 | h1
    · by_cases hp : r.status = Status.pending
      · rcases acc with _ | b
        · rw [selStep_none hp] at h1
          obtain rfl := Option.some.inj h1
          exact Or.inr ⟨List.mem_cons_self r rest, hp⟩
        · by_cases hlt : r.created_at < b.created_at
          · rw [selStep_some_lt hp hlt] at h1
            obtain rfl := Option.some.inj h1
            exact Or.inr ⟨List.mem_cons_self r rest, hp⟩
          · rw [selStep_some_ge hp hlt] at h1
            exact Or.inl h1
      · rw [selStep_not_pending hp] at h1
        exact Or.inl h1
    · exact Or.inr ⟨List.mem_cons_of_mem r h1.1, h1.2⟩

theorem sel_foldl_min : ∀ (rows : List Task) (acc : Option Task) (t : Task),
    rows.foldl selStep acc = some t →
    (∀ b, acc = some b → t.created_at ≤ b.created_at) ∧
    (∀ r ∈ rows, r.status = Status.pending → t.created_at ≤ r.created_at) := by
  intro rows
  induction rows with
  | nil =>
    intro acc t h
    exact ⟨fun b hb => by rw [hb] at h; rw [Option.some.inj h], fun r hr => absurd hr (by simp)⟩
  | cons r rest ih =>
    intro acc t h
    rw [List.foldl_cons] at h
    obtain ⟨ha, hrest⟩ := ih (selStep acc r) t h
    constructor
    · intro b hb
      subst hb
      by_cases hp : r.status = Status.pending
      · by_cases hlt : r.created_at < b.created_at
        · rw [selStep_some_lt hp hlt] at ha
          exact le_trans (ha r rfl) (le_of_lt hlt)
        · rw [selStep_some_ge hp hlt] at ha
          exact ha b rfl
      · rw [selStep_not_pending hp] at ha
        exact ha b rfl
    · intro r' hr' hp'
      rcases List.mem_cons.mp hr' with rfl | hmem
      · rcases acc with _ | b
        · rw [selStep_none hp'] at ha
          exact ha r' rfl
        · by_cases hlt : r'.created_at < b.created_at
          · rw [selStep_some_lt hp' hlt] at ha
            exact ha r' rfl
          · rw [selStep_some_ge hp' hlt] at ha
            exact le_trans (ha b rfl) (Nat.le_of_not_lt hlt)
      · exact hrest r' hmem hp'

theorem sel_foldl_none : ∀ (rows : List Task) (acc : Option Task),
    rows.foldl selStep acc = none →
    acc = none ∧ ∀ r ∈ rows, r.status ≠ Status.pending := by
  intro rows
  induction rows with
  | nil => intro acc h; exact ⟨h, by simp⟩
  | cons r rest ih =>
    intro acc h
    rw [List.foldl_cons] at h
    obtain ⟨hstep, hrest⟩ := ih (selStep acc r) h
    by_cases hp : r.status = Status.pending
    · exfalso
      rcases acc with _ | b
      · rw [selStep_none hp] at hstep
        exact Option.noConfusion hstep
      · by_cases hlt : r.created_at < b.created_at
        · rw [selStep_some_lt hp hlt] at hstep
          exact Option.noConfusion hstep
        · rw [selStep_some_ge hp hlt] at hstep
          exact Option.noConfusion hstep
    · rw [selStep_not_pending hp] at hstep
      refine ⟨hstep, ?_⟩
      intro r' hr'
      rcases List.mem_cons.mp hr' with rfl | hmem
      · exact hp
      · exact hrest r' hmem

theorem sel_foldl_keep : ∀ (rows : List Task) (b : Task),
    (∀ r ∈ rows, r.status = Status.pending → b.created_at ≤ r.created_at) →
    rows.foldl selStep (some b) = some b := by
  intro rows
  induction rows with
  | nil => intro b _; rfl
  | cons r rest ih =>
    intro b hb
    rw [List.foldl_cons]
    have hstep : selStep (some b) r = some b := by
      by_cases hp : r.status = Status.pending
      · exact selStep_some_ge hp (Nat.not_lt.mpr (hb r (List.mem_cons_self r rest) hp))
      · exact selStep_not_pending hp
    rw [hstep]
    exact ih b (fun r' hr' => hb r' (List.mem_cons_of_mem r hr'))

theorem selectOldestPending_mem {rows : List Task} {t : Task}
    (h : selectOldestPending rows = some t) : t ∈ rows ∧ t.status = Status.pending := by
  rcases sel_foldl_mem rows none t h with h1 | h1
  · exact Option.noConfusion h1
  · exact h1

theorem selectOldestPending_min {rows : List Task} {t : Task}
    (h : selectOldestPending rows = some t) :
    ∀ r ∈ rows, r.status = Status.pending → t.created_at ≤ r.created_at :=
  (sel_foldl_min rows none t h).2

theorem selectOldestPending_none {rows : List Task}
    (h : selectOldestPending rows = none) : ∀ r ∈ rows, r.status ≠ Status.pending :=
  (sel_foldl_none rows none h).2

theorem select_eq_first_pending : ∀ (rows : List Task),
    rows.Pairwise (fun a b => a.created_at ≤ b.created_at) →
    selectOldestPending rows = rows.find? (fun r => decide (r.status = Status.pending)) := by
  intro rows
  induction rows with
  | nil => intro _; rfl
  | cons r rest ih =>
    intro hcr
    obtain ⟨hhead, htail⟩ := List.pairwise_cons.mp hcr
    unfold selectOldestPending
    rw [List.foldl_cons]
    by_cases hp : r.status = Status.pending
    · have hstep : selStep none r = some r := by unfold selStep; rw [if_pos hp]
      rw [hstep, sel_foldl_keep rest r (fun r' hr' _ => hhead r' hr'),
        List.find?_cons_of_pos _ (by simp [hp])]
    · have hstep : selStep none r = none := by unfold selStep; rw [if_neg hp]
      rw [hstep, List.find?_cons_of_neg _ (by simp [hp])]
      exact ih htail

theorem find?_split {α : Type} {p : α → Bool} : ∀ {l : List α} {t : α},
    l.find? p = some t →
    ∃ l₁ l₂, l = l₁ ++ t :: l₂ ∧ (∀ r ∈ l₁, p r = false) ∧ p t = true := by
  intro l
  induction l with
  | nil => intro t h; exact Option.noConfusion h
  | cons x xs ih =>
    intro t h
    by_cases hx : p x = true
    · rw [List.find?_cons_of_pos _ hx] at h
      obtain rfl := Option.some.inj h
      exact ⟨[], xs, rfl, by simp, hx⟩
    · rw [List.find?_cons_of_neg _ hx] at h
      obtain ⟨l₁, l₂, rfl, hl₁, hpt⟩ := ih h
      exact ⟨x :: l₁, l₂, rfl, by
        intro r hr
        rcases List.mem_cons.mp hr with rfl | hmem
        · exact Bool.eq_false_iff.mpr hx
        · exact hl₁ r hmem, hpt⟩

theorem isTerminal_eq_false {st : Status} :
    isTerminal st = false ↔ (st = Status.pending ∨ st = Status.running) := by
  cases st <;> simp [isTerminal]

theorem isTerminal_eq_true {st : Status} :
    isTerminal st = true ↔ (st = Status.completed ∨ st = Status.failed) := by
  cases st <;> simp [isTerminal]

/-- C9: `clear_terminal` deletes exactly the completed/failed rows,
leaves every pending and running row in place, and returns exactly the
number of rows it removed. -/
theorem clear_terminal_exact (s : TaskState) : ClearTerminalSpec s := by
  unfold ClearTerminalSpec clear_completed_tasks
  refine ⟨rfl, rfl, ?_, ?_, ?_, ?_, rfl⟩
  · exact (List.length_eq_length_filter_add (fun r : Task => isTerminal r.status)).symm
  · intro r hr hst
    exact List.mem_filter.mpr ⟨hr, by simp [isTerminal_eq_false.mpr hst]⟩
  · intro r _ hst hmem
    have h2 := (List.mem_filter.mp hmem).2
    simp [isTerminal_eq_true.mpr hst] at h2
  · intro r hr
    exact (List.mem_filter.mp hr).1

/-- Witness for C9 at a concrete table holding one row of each status. -/
theorem clear_terminal_exact_witness : ClearTerminalSpec cw9 :=
  clear_terminal_exact cw9

/-- The row rewrite performed by `complete_task`, with the status
computation inlined. -/
theorem complete_task_rows (s : TaskState) (task_id : Nat) (succ : Bool)
    (err : Option String) (now : Nat) :
    (complete_task task_id succ err now s).rows = s.rows.map (fun r =>
      if r.id = task_id then
        { r with
          status := if succ then Status.completed else Status.failed
          error_message := err
          completed_at := some now }
      else r) := rfl

/-- C5: `complete` stamps a terminal status, `completed_at`, and the
error message (null on success), and calling it twice on one id is an
idempotent overwrite. -/
theorem complete_restamps (s : TaskState) (task_id : Nat) (now now' : Nat) (msg : String)
    (h : ∃ r ∈ s.rows, r.id = task_id) : CompleteSpec s task_id now now' msg := by
  unfold CompleteSpec
  refine ⟨?_, ?_, ?_, ?_⟩
  · obtain ⟨r, hr, hid⟩ := h
    rw [complete_task_rows]
    refine ⟨_, List.mem_map_of_mem _ hr, ?_⟩
    simp [hid]
  · intro r hmem hid
    rw [complete_task_rows] at hmem
    obtain ⟨a, ha, rfl⟩ := List.mem_map.mp hmem
    by_cases hc : a.id = task_id
    · simp [hc]
    · simp [hc] at hid
  · intro r hmem hid
    rw [complete_task_rows] at hmem
    obtain ⟨a, ha, rfl⟩ := List.mem_map.mp hmem
    by_cases hc : a.id = task_id
    · simp [hc]
    · simp [hc] at hid
  · intro succ₁ e₁ succ₂ e₂
    show TaskState.mk _ _ = TaskState.mk _ _
    congr 1
    rw [complete_task_rows, List.map_map]
    refine List.map_congr_left ?_
    intro a _
    by_cases hc : a.id = task_id <;> simp [Function.comp, hc]

/-- Witness for C5: completing task 2 of a concrete two-row table. -/
theorem complete_restamps_witness :
    (∃ r ∈ cw5.rows, r.id = 2) ∧ CompleteSpec cw5 2 7 9 "boom" :=
  ⟨by decide, complete_restamps cw5 2 7 9 "boom" (by decide)⟩

theorem markRunning_id (i now : Nat) (r : Task) : (markRunning i now r).id = r.id := by
  unfold markRunning
  split <;> rfl

theorem exists_id_map {rows : List Task} {i : Nat} (f : Task → Task)
    (hf : ∀ r, (f r).id = r.id) (h : ∃ r ∈ rows, r.id = i) :
    ∃ r ∈ rows.map f, r.id = i := by
  obtain ⟨r, hr, hid⟩ := h
  exact ⟨f r, List.mem_map_of_mem f hr, by rw [hf r, hid]⟩

theorem complete_task_at_id {s : TaskState} {task_id : Nat} {succ : Bool}
    {err : Option String} {now : Nat} :
    ∀ r ∈ (complete_task task_id succ err now s).rows, r.id = task_id →
      r.status = (if succ then Status.completed else Status.failed) ∧
      r.error_message = err ∧ r.completed_at = some now := by
  intro r hmem hid
  rw [complete_task_rows] at hmem
  obtain ⟨a, ha, rfl⟩ := List.mem_map.mp hmem
  by_cases hc : a.id = task_id
  · simp [hc]
  · simp [hc] at hid

theorem complete_task_exists_id {s : TaskState} {task_id : Nat} (succ : Bool)
    (err : Option String) (now : Nat) (h : ∃ r ∈ s.rows, r.id = task_id) :
    ∃ r ∈ (complete_task task_id succ err now s).rows, r.id = task_id := by
  rw [complete_task_rows]
  refine exists_id_map _ ?_ h
  intro r
  by_cases hc : r.id = task_id <;> simp [hc]

/-- `save_coin` under a storage failure: returns false, leaves the table
unchanged, and (being a total function) never raises. -/
theorem save_coin_storage_fail (d : CoinData) (now : Nat) (s : CoinState) :
    save_coin false d now s = (false, s) := by
  cases h : d.cert_number <;> simp [save_coin]

/-- C3: a poll iteration whose fetch raises `msg` marks the claimed task
failed with `error_message = msg`, leaves the coin table alone, and the
loop still runs its next iteration. -/
theorem fetch_error_marks_failed (fetch : String → Except String CoinData)
    (storageOk : Bool) (now : Nat) (ts : TaskState) (cs : CoinState) (t : Task) (msg : String)
    (hsel : selectOldestPending ts.rows = some t)
    (hf : fetch t.cert_number = Except.error msg) :
    FetchErrorSpec fetch storageOk now ts cs t msg := by
  have hrun : processNextTask fetch storageOk now ts cs =
      (complete_task t.id false (some msg) now
        { ts with rows := ts.rows.map (markRunning t.id now) }, cs) := by
    simp only [processNextTask, get_pending_task, hsel, hf]
  refine ⟨by rw [hrun], ?_, ?_, fun rest now' st => rfl⟩
  · rw [hrun]
    refine complete_task_exists_id _ _ _ ?_
    refine exists_id_map _ (markRunning_id t.id now) ?_
    exact ⟨t, (selectOldestPending_mem hsel).1, rfl⟩
  · rw [hrun]
    intro r hmem hid
    have := complete_task_at_id r hmem hid
    simpa using this

/-- C4: when the fetch succeeds but the coin upsert hits a storage
failure, `save_coin` returns false without raising, and the task is
still marked completed. -/
theorem upsert_failure_still_completed (fetch : String → Except String CoinData)
    (now : Nat) (ts : TaskState) (cs : CoinState) (t : Task) (d : CoinData)
    (hsel : selectOldestPending ts.rows = some t)
    (hf : fetch t.cert_number = Except.ok d) :
    UpsertFailureSpec fetch now ts cs t := by
  have hrun : processNextTask fetch false now ts cs =
      (complete_task t.id true none now
        { ts with rows := ts.rows.map (markRunning t.id now) }, cs) := by
    simp only [processNextTask, get_pending_task, hsel, hf, save_coin_storage_fail]
  refine ⟨fun d' now' cs' => save_coin_storage_fail d' now' cs', by rw [hrun], ?_, ?_⟩
  · rw [hrun]
    refine complete_task_exists_id _ _ _ ?_
    refine exists_id_map _ (markRunning_id t.id now) ?_
    exact ⟨t, (selectOldestPending_mem hsel).1, rfl⟩
  · rw [hrun]
    intro r hmem hid
    obtain ⟨h1, h2, h3⟩ := complete_task_at_id r hmem hid
    simp only [if_true] at h1
    exact ⟨h1, h3, h2⟩

/-- Witness for C3: one pending task, a fetch that raises "timeout". -/
theorem fetch_error_marks_failed_witness :
    (selectOldestPending cw3State.rows =
        some { id := 1, cert_number := "A", status := Status.pending, error_message := none,
               created_at := 0, started_at := none, completed_at := none }) ∧
    (cw3Fetch "A" = Except.error "timeout") ∧
    FetchErrorSpec cw3Fetch true 7 cw3State initCoinState
      { id := 1, cert_number := "A", status := Status.pending, error_message := none,
        created_at := 0, started_at := none, completed_at := none } "timeout" :=
  ⟨by decide, rfl,
   fetch_error_marks_failed cw3Fetch true 7 cw3State initCoinState _ "timeout" (by decide) rfl⟩

theorem idsFrom_length : ∀ (n start : Nat), (idsFrom start n).length = n := by
  intro n
  induction n with
  | zero => intro start; rfl
  | succ m ih => intro start; simp [idsFrom, ih]

theorem add_tasks_batch_go (now : Nat) :
    ∀ (certs : List String) (s : TaskState) (acc : List Nat),
      List.foldl
        (fun acc c =>
          let r := add_task c.trim now acc.2
          (acc.1 ++ [r.1], r.2))
        (acc, s) certs =
      (acc ++ idsFrom s.nextId certs.length,
       { nextId := s.nextId + certs.length, rows := s.rows ++ mkRows s.nextId now certs }) := by
  intro certs
  induction certs with
  | nil =>
    intro s acc
    simp [idsFrom, mkRows]
  | cons c cs ih =>
    intro s acc
    rw [List.foldl_cons]
    have h2 := ih
      { nextId := s.nextId + 1,
        rows := s.rows ++
          [{ id := s.nextId, cert_number := c.trim, status := Status.pending,
             error_message := none, created_at := now, started_at := none,
             completed_at := none }] }
      (acc ++ [s.nextId])
    refine Eq.trans h2 ?_
    simp [idsFrom, mkRows, List.append_assoc]
    omega

theorem add_tasks_batch_eq (certs : List String) (now : Nat) (s : TaskState) :
    add_tasks_batch certs now s =
      (idsFrom s.nextId certs.length,
       { nextId := s.nextId + certs.length, rows := s.rows ++ mkRows s.nextId now certs }) := by
  have h := add_tasks_batch_go now certs s []
  simpa [add_tasks_batch] using h

/-- C7: the batch endpoint inserts one pending row per trimmed non-empty
input id, in input order, and returns the matching ids in that order;
inputs that trim to empty are skipped, and an all-empty input inserts
nothing. -/
theorem batch_inserts_trimmed (cert_numbers : List String) (now : Nat) (s : TaskState) :
    BatchSpec cert_numbers now s := by
  unfold BatchSpec
  by_cases hz : (cert_numbers.map String.trim).filter (fun c => c ≠ "") = []
  · constructor
    · intro _
      simp only [create_tasks_batch]
      rw [if_pos (by rw [hz]; rfl)]
    · intro ids s' hok
      simp only [create_tasks_batch] at hok
      rw [if_pos (by rw [hz]; rfl)] at hok
      exact Except.noConfusion hok
  · constructor
    · intro h
      exact absurd h hz
    · intro ids s' hok
      simp only [create_tasks_batch] at hok
      rw [if_neg (by simpa using hz), add_tasks_batch_eq] at hok
      have h1 := Except.ok.inj hok
      have h2 : ids =
          idsFrom s.nextId ((cert_numbers.map String.trim).filter (fun c => c ≠ "")).length :=
        (congrArg Prod.fst h1).symm
      have h3 : s' =
          { nextId := s.nextId +
              ((cert_numbers.map String.trim).filter (fun c => c ≠ "")).length,
            rows := s.rows ++
              mkRows s.nextId now ((cert_numbers.map String.trim).filter (fun c => c ≠ "")) } :=
        (congrArg Prod.snd h1).symm
      exact ⟨h2, by rw [h2, idsFrom_length], by rw [h3], by rw [h3]⟩

/-- Witness for C7 on a concrete mixed input list (two real ids, one
whitespace-only, one empty). -/
theorem batch_inserts_trimmed_witness : BatchSpec cw7Input 5 cw7State :=
  batch_inserts_trimmed cw7Input 5 cw7State

/-- Witness for C4: one pending task, a fetch that succeeds, storage
failing. -/
theorem upsert_failure_still_completed_witness :
    (selectOldestPending cw4State.rows =
        some { id := 1, cert_number := "A", status := Status.pending, error_message := none,
               created_at := 0, started_at := none, completed_at := none }) ∧
    (cw4Fetch "A" = Except.ok cw4Data) ∧
    UpsertFailureSpec cw4Fetch 7 cw4State initCoinState
      { id := 1, cert_number := "A", status := Status.pending, error_message := none,
        created_at := 0, started_at := none, completed_at := none } :=
  ⟨by decide, rfl,
   upsert_failure_still_completed cw4Fetch 7 cw4State initCoinState _ cw4Data (by decide) rfl⟩

theorem save_coin_some (d : CoinData) {cert : String} (h : d.cert_number = some cert)
    (now : Nat) (s : CoinState) :
    save_coin true d now s =
      (true, { nextId := s.nextId + 1,
               rows := s.rows.filter (fun r => r.cert_number ≠ cert) ++
                 [coinRow d cert s.nextId now] }) := by
  simp [save_coin, h, coinRow]

theorem save_coin_no_cert (d : CoinData) (h : d.cert_number = none)
    (now : Nat) (s : CoinState) (ok : Bool) :
    save_coin ok d now s = (false, s) := by
  cases ok
  · exact save_coin_storage_fail d now s
  · simp [save_coin, h]

theorem certUnique_save (ok : Bool) (d : CoinData) (now : Nat) {s : CoinState}
    (h : CertUnique s) : CertUnique (save_coin ok d now s).2 := by
  cases ok
  · rw [save_coin_storage_fail]
    exact h
  · cases hc : d.cert_number with
    | none =>
      rw [save_coin_no_cert d hc]
      exact h
    | some cert =>
      rw [save_coin_some d hc]
      unfold CertUnique
      rw [List.pairwise_append]
      refine ⟨h.sublist (List.filter_sublist _), by simp, ?_⟩
      intro a ha b hb
      rcases List.mem_singleton.mp hb with rfl
      have h2 := of_decide_eq_true (List.mem_filter.mp ha).2
      simpa [coinRow] using h2

theorem certUnique_delete (c : String) {s : CoinState} (h : CertUnique s) :
    CertUnique (delete_coin c s).2 :=
  h.sublist (List.filter_sublist _)

theorem certUnique_runCoinOps : ∀ (ops : List CoinOp) (s : CoinState),
    CertUnique s → CertUnique (runCoinOps ops s) := by
  intro ops
  induction ops with
  | nil => intro s h; exact h
  | cons op rest ih =>
    intro s h
    cases op with
    | save ok d now => exact ih _ (certUnique_save ok d now h)
    | delete c => exact ih _ (certUnique_delete c h)

theorem filter_ne_then_eq (cert : String) : ∀ (l : List Coin),
    (l.filter (fun r => r.cert_number ≠ cert)).filter (fun r => r.cert_number = cert) = [] := by
  intro l
  induction l with
  | nil => rfl
  | cons x xs ih =>
    by_cases hx : x.cert_number = cert
    · simp [List.filter_cons, hx, ih]
    · simp [List.filter_cons, hx, ih]

/-- C6: at most one coin row per cert at any reachable table, and a
second upsert of the same cert leaves exactly one row holding the second
payload's values in full, raw snapshot included. -/
theorem upsert_unique_last_write (ops : List CoinOp) (s : CoinState) (d₁ d₂ : CoinData)
    (cert : String) (now₁ now₂ : Nat)
    (h₁ : d₁.cert_number = some cert) (h₂ : d₂.cert_number = some cert) :
    UpsertTwiceSpec ops s d₁ d₂ cert now₁ now₂ := by
  have hY : (save_coin true d₂ now₂ (save_coin true d₁ now₁ s).2).2.rows =
      ((s.rows.filter (fun r => r.cert_number ≠ cert)).filter
          (fun r => r.cert_number ≠ cert)) ++
        [coinRow d₂ cert (s.nextId + 1) now₂] := by
    rw [save_coin_some d₁ h₁, save_coin_some d₂ h₂]
    simp [List.filter_append, coinRow]
  unfold UpsertTwiceSpec
  refine ⟨certUnique_runCoinOps ops initCoinState (by simp [CertUnique, initCoinState]),
    ?_, ?_⟩
  · rw [hY, List.filter_append, filter_ne_then_eq]
    simp [coinRow]
  · intro r hr hc
    rw [hY] at hr
    rcases List.mem_append.mp hr with hl | hr2
    · have h3 := of_decide_eq_true (List.mem_filter.mp hl).2
      exact absurd hc h3
    · rcases List.mem_singleton.mp hr2 with rfl
      simp [coinRow]

/-- Witness for C6: upserting cert "A" twice over an empty table, with
the reachable-table invariant witnessed over a three-operation run. -/
theorem upsert_unique_last_write_witness :
    (cw6Data1.cert_number = some "A") ∧ (cw6Data2.cert_number = some "A") ∧
    UpsertTwiceSpec cw6Ops initCoinState cw6Data1 cw6Data2 "A" 3 4 :=
  ⟨rfl, rfl, upsert_unique_last_write cw6Ops initCoinState cw6Data1 cw6Data2 "A" 3 4 rfl rfl⟩

theorem sortByCreatedDesc_append_max : ∀ (l : List Coin) (c : Coin),
    (∀ y ∈ l, y.created_at < c.created_at) →
    sortByCreatedDesc (l ++ [c]) = c :: sortByCreatedDesc l := by
  intro l
  induction l with
  | nil => intro c _; rfl
  | cons x xs ih =>
    intro c hc
    rw [List.cons_append]
    show insertByCreatedDesc x (sortByCreatedDesc (xs ++ [c])) =
      c :: insertByCreatedDesc x (sortByCreatedDesc xs)
    rw [ih c (fun y hy => hc y (List.mem_cons_of_mem x hy))]
    show (if x.created_at > c.created_at
        then x :: c :: sortByCreatedDesc xs
        else c :: insertByCreatedDesc x (sortByCreatedDesc xs)) = _
    rw [if_neg (Nat.lt_asymm (hc x (List.mem_cons_self x xs)))]

/-- C10: upserting an already-stored cert replaces the old row with a
freshly inserted one — new id, new `created_at` — and the coin moves to
the front of `get_all_coins`' newest-first ordering. -/
theorem upsert_replaces_row (s : CoinState) (d : CoinData) (cert : String) (now : Nat)
    (_hmem : ∃ old ∈ s.rows, old.cert_number = cert)
    (hd : d.cert_number = some cert)
    (hid : ∀ r ∈ s.rows, r.id < s.nextId)
    (htime : ∀ r ∈ s.rows, r.created_at < now) :
    ReplaceNotUpdateSpec s d cert now := by
  unfold ReplaceNotUpdateSpec
  rw [save_coin_some d hd]
  refine ⟨rfl, ?_, ?_, ?_⟩
  · intro old hold hcert hmemnew
    rcases List.mem_append.mp hmemnew with hl | hr
    · have h3 := of_decide_eq_true (List.mem_filter.mp hl).2
      exact absurd hcert h3
    · rcases List.mem_singleton.mp hr with heq
      have : old.created_at = now := by rw [heq]; rfl
      exact absurd this (Nat.ne_of_lt (htime old hold))
  · intro r hr hc
    rcases List.mem_append.mp hr with hl | hr2
    · have h3 := of_decide_eq_true (List.mem_filter.mp hl).2
      exact absurd hc h3
    · rcases List.mem_singleton.mp hr2 with rfl
      exact ⟨rfl, rfl, fun old hold => Nat.ne_of_gt (hid old hold)⟩
  · show ∃ r, (get_all_coins
        { nextId := s.nextId + 1,
          rows := s.rows.filter (fun r => r.cert_number ≠ cert) ++
            [coinRow d cert s.nextId now] }).head? = some r ∧ _
    unfold get_all_coins
    rw [sortByCreatedDesc_append_max _ _
      (fun y hy => htime y (List.mem_filter.mp hy).1)]
    exact ⟨coinRow d cert s.nextId now, rfl, rfl, rfl, rfl⟩

/-- Witness for C10: cert "A" is already stored (row id 1, created 0);
the upsert at time 5 with AUTOINCREMENT at 3 replaces it. -/
theorem upsert_replaces_row_witness :
    (∃ old ∈ cw10State.rows, old.cert_number = "A") ∧
    (cw10Data.cert_number = some "A") ∧
    (∀ r ∈ cw10State.rows, r.id < cw10State.nextId) ∧
    (∀ r ∈ cw10State.rows, r.created_at < 5) ∧
    ReplaceNotUpdateSpec cw10State cw10Data "A" 5 :=
  ⟨by decide, rfl, by decide, by decide,
   upsert_replaces_row cw10State cw10Data "A" 5 (by decide) rfl (by decide) (by decide)⟩

theorem map_eq_self_of {l : List Task} {f : Task → Task} (h : ∀ r ∈ l, f r = r) :
    l.map f = l := by
  induction l with
  | nil => rfl
  | cons x xs ih =>
    rw [List.map_cons, h x (List.mem_cons_self x xs),
      ih (fun r hr => h r (List.mem_cons_of_mem x hr))]

theorem markRunning_ne {i now : Nat} {r : Task} (h : r.id ≠ i) : markRunning i now r = r := by
  unfold markRunning
  rw [if_neg h]

theorem markRunning_self (now : Nat) (t : Task) :
    markRunning t.id now t = { t with status := Status.running, started_at := some now } := by
  unfold markRunning
  rw [if_pos rfl]

/-- C1: `claim_next` picks the oldest pending row (lowest id among equal
timestamps), flips exactly that row to running with `started_at = now`,
and returns it; with no pending row it returns none and changes
nothing. -/
theorem claim_next_oldest (s : TaskState) (now : Nat)
    (hid : s.rows.Pairwise (fun a b => a.id < b.id))
    (hcr : s.rows.Pairwise (fun a b => a.created_at ≤ b.created_at)) :
    ClaimNextSpec s now := by
  unfold ClaimNextSpec
  constructor
  · intro s₂ h
    cases hsel : selectOldestPending s.rows with
    | none =>
      simp only [get_pending_task, hsel] at h
      injection h with h1 h2
      subst h2
      exact ⟨rfl, selectOldestPending_none hsel⟩
    | some t' =>
      simp only [get_pending_task, hsel] at h
      injection h with h1 h2
      exact Option.noConfusion h1
  · intro t s₂ h
    cases hsel : selectOldestPending s.rows with
    | none =>
      simp only [get_pending_task, hsel] at h
      injection h with h1 h2
      exact Option.noConfusion h1
    | some t' =>
      simp only [get_pending_task, hsel] at h
      injection h with h1 h2
      obtain rfl := Option.some.inj h1
      subst h2
      have hfind := select_eq_first_pending s.rows hcr
      rw [hsel] at hfind
      obtain ⟨l₁, l₂, hsplit, hl₁, _⟩ := find?_split hfind.symm
      have hid' := hsplit ▸ hid
      obtain ⟨_, p₂, cross⟩ := List.pairwise_append.mp hid'
      have hhead := (List.pairwise_cons.mp p₂).1
      have hl₁lt : ∀ a ∈ l₁, a.id < t'.id :=
        fun a ha => cross a ha t' (List.mem_cons_self t' l₂)
      refine ⟨(selectOldestPending_mem hsel).2, selectOldestPending_min hsel, ?_, rfl, ?_⟩
      · intro r hr hp _
        rw [hsplit] at hr
        rcases List.mem_append.mp hr with hm | hm
        · exact absurd hp (of_decide_eq_false (hl₁ r hm))
        · rcases List.mem_cons.mp hm with rfl | hm2
          · exact Nat.le_refl _
          · exact Nat.le_of_lt (hhead r hm2)
      · refine ⟨l₁, l₂, hsplit, ?_⟩
        show (s.rows.map (markRunning t'.id now)) = _
        rw [hsplit, List.map_append, List.map_cons, markRunning_self,
          map_eq_self_of (fun r hr => markRunning_ne (Nat.ne_of_lt (hl₁lt r hr))),
          map_eq_self_of (fun r hr => markRunning_ne (Nat.ne_of_gt (hhead r hr)))]

/-- Witness for C1 on a concrete table with an equal-timestamp tie
between the two pending rows. -/
theorem claim_next_oldest_witness :
    (cw1State.rows.Pairwise (fun a b => a.id < b.id)) ∧
    (cw1State.rows.Pairwise (fun a b => a.created_at ≤ b.created_at)) ∧
    ClaimNextSpec cw1State 9 :=
  ⟨by decide, by decide, claim_next_oldest cw1State 9 (by decide) (by decide)⟩

theorem unique_by_id : ∀ {l : List Task}, l.Pairwise (fun a b => a.id < b.id) →
    ∀ {a b : Task}, a ∈ l → b ∈ l → a.id = b.id → a = b := by
  intro l
  induction l with
  | nil => intro _ a b ha; cases ha
  | cons x xs ih =>
    intro hp a b ha hb hid
    obtain ⟨hx, hxs⟩ := List.pairwise_cons.mp hp
    rcases List.mem_cons.mp ha with rfl | ha2 <;> rcases List.mem_cons.mp hb with rfl | hb2
    · rfl
    · exact absurd hid (Nat.ne_of_lt (hx b hb2))
    · exact absurd hid.symm (Nat.ne_of_lt (hx a ha2))
    · exact ih hxs ha2 hb2 hid

theorem idInv_rows_map {s : TaskState} (f : Task → Task) (hf : ∀ r, (f r).id = r.id)
    (h : IdInv s) : IdInv { s with rows := s.rows.map f } := by
  constructor
  · rw [List.pairwise_map]
    refine h.1.imp ?_
    intro a b hab
    rw [hf a, hf b]
    exact hab
  · intro r hr
    obtain ⟨a, ha, rfl⟩ := List.mem_map.mp hr
    rw [hf a]
    exact h.2 a ha

theorem idInv_filter {s : TaskState} (p : Task → Bool) (h : IdInv s) :
    IdInv { s with rows := s.rows.filter p } :=
  ⟨h.1.sublist (List.filter_sublist _), fun r hr => h.2 r (List.mem_filter.mp hr).1⟩

theorem idInv_add (c : String) (now : Nat) {s : TaskState} (h : IdInv s) :
    IdInv (add_task c now s).2 := by
  constructor
  · rw [show (add_task c now s).2.rows = s.rows ++
      [{ id := s.nextId, cert_number := c, status := Status.pending, error_message := none,
         created_at := now, started_at := none, completed_at := none }] from rfl,
      List.pairwise_append]
    refine ⟨h.1, by simp, ?_⟩
    intro a ha b hb
    rcases List.mem_singleton.mp hb with rfl
    exact h.2 a ha
  · intro r hr
    rcases List.mem_append.mp hr with hm | hm
    · exact Nat.lt_trans (h.2 r hm) (Nat.lt_succ_self _)
    · rcases List.mem_singleton.mp hm with rfl
      exact Nat.lt_succ_self _

theorem idInv_mark (t : Task) (now : Nat) {s : TaskState} (h : IdInv s) :
    IdInv { s with rows := s.rows.map (markRunning t.id now) } :=
  idInv_rows_map _ (markRunning_id t.id now) h

theorem idInv_complete (i : Nat) (b : Bool) (e : Option String) (now : Nat)
    {s : TaskState} (h : IdInv s) : IdInv (complete_task i b e now s) := by
  constructor
  · rw [show (complete_task i b e now s).rows = _ from complete_task_rows s i b e now,
      List.pairwise_map]
    refine h.1.imp ?_
    intro a b' hab
    by_cases h1 : a.id = i <;> by_cases h2 : b'.id = i <;> simp [h1, h2] <;> omega
  · intro r hr
    rw [complete_task_rows] at hr
    obtain ⟨a, ha, rfl⟩ := List.mem_map.mp hr
    show (if a.id = i then _ else a).id < s.nextId
    by_cases h1 : a.id = i
    · rw [if_pos h1]
      exact h.2 a ha
    · rw [if_neg h1]
      exact h.2 a ha

theorem rowOK_add (c : String) (now : Nat) {s : TaskState}
    (h : ∀ r ∈ s.rows, RowOK r) : ∀ r ∈ (add_task c now s).2.rows, RowOK r := by
  intro r hr
  rcases List.mem_append.mp hr with hm | hm
  · exact h r hm
  · rcases List.mem_singleton.mp hm with rfl
    exact ⟨fun hx => absurd rfl hx, fun hx => absurd rfl hx, fun hx => absurd rfl hx⟩

theorem rowOK_mark {s : TaskState} {t : Task} (hinv : IdInv s)
    (hsel : selectOldestPending s.rows = some t) (now : Nat)
    (h : ∀ r ∈ s.rows, RowOK r) :
    ∀ r ∈ s.rows.map (markRunning t.id now), RowOK r := by
  intro r hr
  obtain ⟨a, ha, rfl⟩ := List.mem_map.mp hr
  by_cases hc : a.id = t.id
  · obtain ⟨ht, hpend⟩ := selectOldestPending_mem hsel
    have hat : a = t := unique_by_id hinv.1 ha ht hc
    subst hat
    rw [markRunning_self now a]
    refine ⟨fun hx => ?_, fun _ hcontr => Status.noConfusion hcontr, fun hx => ?_⟩
    · have h1 := (h a ha).1 hx
      rw [hpend] at h1
      exact Status.noConfusion h1
    · have h1 := (h a ha).2.2 hx
      rw [hpend] at h1
      rcases h1 with h1 | h1 <;> exact Status.noConfusion h1
  · rw [markRunning_ne hc]
    exact h a ha

theorem rowOK_complete (i : Nat) (b : Bool) (e : Option String) (now : Nat) {s : TaskState}
    (hwf : (!b || e.isNone) = true) (h : ∀ r ∈ s.rows, RowOK r) :
    ∀ r ∈ (complete_task i b e now s).rows, RowOK r := by
  intro r hr
  rw [complete_task_rows] at hr
  obtain ⟨a, ha, rfl⟩ := List.mem_map.mp hr
  by_cases hc : a.id = i
  · rw [if_pos hc]
    cases b
    · exact ⟨fun _ => rfl, fun _ hcontr => Status.noConfusion hcontr, fun _ => Or.inr rfl⟩
    · have he : e = none := Option.isNone_iff_eq_none.mp (by simpa using hwf)
      subst he
      exact ⟨fun hx => absurd rfl hx, fun _ hcontr => Status.noConfusion hcontr,
        fun _ => Or.inl rfl⟩
  · rw [if_neg hc]
    exact h a ha

theorem runOps_rowOK : ∀ (trace : List (TaskOp × Nat)) (s : TaskState),
    (∀ p ∈ trace, opWellFormed p.1 = true) →
    IdInv s → (∀ r ∈ s.rows, RowOK r) →
    IdInv (runOps trace s).1 ∧ ∀ r ∈ (runOps trace s).1.rows, RowOK r := by
  intro trace
  induction trace with
  | nil => intro s _ h1 h2; exact ⟨h1, h2⟩
  | cons step rest ih =>
    obtain ⟨op, now⟩ := step
    intro s hwf h1 h2
    have hwfr : ∀ p ∈ rest, opWellFormed p.1 = true :=
      fun p hp => hwf p (List.mem_cons_of_mem _ hp)
    cases op with
    | enqueue c =>
      exact ih (add_task c now s).2 hwfr (idInv_add c now h1) (rowOK_add c now h2)
    | claim =>
      cases hsel : selectOldestPending s.rows with
      | none =>
        have hrw : runOps ((TaskOp.claim, now) :: rest) s = runOps rest s := by
          simp [runOps, get_pending_task, hsel]
        rw [hrw]
        exact ih s hwfr h1 h2
      | some t =>
        have hrw : (runOps ((TaskOp.claim, now) :: rest) s).1 =
            (runOps rest { s with rows := s.rows.map (markRunning t.id now) }).1 := by
          simp [runOps, get_pending_task, hsel]
        rw [hrw]
        exact ih _ hwfr (idInv_mark t now h1) (rowOK_mark h1 hsel now h2)
    | complete i b e =>
      have hb : (!b || e.isNone) = true := hwf (TaskOp.complete i b e, now)
        (List.mem_cons_self _ _)
      exact ih (complete_task i b e now s) hwfr (idInv_complete i b e now h1)
        (rowOK_complete i b e now hb h2)
    | delete i =>
      exact ih (delete_task i s).2 hwfr (idInv_filter _ h1)
        (fun r hr => h2 r (List.mem_filter.mp hr).1)
    | clearTerminal =>
      exact ih (clear_completed_tasks s).2 hwfr (idInv_filter _ h1)
        (fun r hr => h2 r (List.mem_filter.mp hr).1)

/-- C8 (amended): over every operation sequence in which `complete` is
never called with success=true together with an error message — the
discipline every call site in this codebase follows — each reachable row
has an error message only when failed, `started_at` only once it has
left pending, and `completed_at` only when completed or failed. -/
theorem task_fields_invariant (trace : List (TaskOp × Nat))
    (hwf : ∀ p ∈ trace, opWellFormed p.1 = true) :
    ∀ r ∈ (runOps trace initTaskState).1.rows, RowOK r :=
  (runOps_rowOK trace initTaskState hwf ⟨List.Pairwise.nil, fun r hr => absurd hr (by simp [initTaskState])⟩
    (fun r hr => absurd hr (by simp [initTaskState]))).2

/-- Counterexample to C8 as literally stated: the store operation
`complete(1, success=true, "oops")` is reachable through the listed
operations and leaves a completed row carrying an error message. -/
theorem task_fields_counterexample :
    ∃ r ∈ (runOps cx8Trace initTaskState).1.rows,
      r.error_message ≠ none ∧ r.status ≠ Status.failed := by decide

/-- Witness for the amended C8 on a nine-operation trace exercising
enqueue, claim, both completions, clear, and delete. -/
theorem task_fields_invariant_witness :
    (∀ p ∈ cw8Trace, opWellFormed p.1 = true) ∧
    ∀ r ∈ (runOps cw8Trace initTaskState).1.rows, RowOK r :=
  ⟨by decide, task_fields_invariant cw8Trace (by decide)⟩

theorem markRunning_created (i now : Nat) (r : Task) :
    (markRunning i now r).created_at = r.created_at := by
  unfold markRunning
  split <;> rfl

theorem markRunning_status_ne {i now : Nat} {r : Task} (h : r.id ≠ i) :
    (markRunning i now r).status = r.status := by
  rw [markRunning_ne h]

theorem runOps_fifo_aux : ∀ (trace : List (TaskOp × Nat)) (s : TaskState) (lb k : Nat),
    (∀ p ∈ trace, isQueueOp p.1 = true) →
    (trace.map Prod.snd).Pairwise (fun a b => a ≤ b) →
    s.rows.Pairwise (fun a b => a.id < b.id) →
    s.rows.Pairwise (fun a b => a.created_at ≤ b.created_at) →
    (∀ r ∈ s.rows, r.id < s.nextId) →
    (∀ r ∈ s.rows, ∀ p ∈ trace, r.created_at ≤ p.2) →
    (∀ p ∈ trace, lb ≤ p.2) →
    (∀ r ∈ s.rows, r.status = Status.pending → lb ≤ r.created_at) →
    (∀ r ∈ s.rows, r.id ≤ k → r.status ≠ Status.pending) →
    k < s.nextId →
    (∀ c ∈ (runOps trace s).2, lb ≤ c.created_at ∧ k < c.id) ∧
    (runOps trace s).2.Pairwise (fun a b => a.created_at ≤ b.created_at) ∧
    (runOps trace s).2.Pairwise (fun a b => a.id < b.id) := by
  intro trace
  induction trace with
  | nil =>
    intro s lb k _ _ _ _ _ _ _ _ _ _
    exact ⟨fun c hc => absurd hc (by simp [runOps]), List.Pairwise.nil, List.Pairwise.nil⟩
  | cons step rest ih =>
    obtain ⟨op, now⟩ := step
    intro s lb k hq ht hids hcr hbound hct hlbt hlb hk hkn
    have hqr : ∀ p ∈ rest, isQueueOp p.1 = true :=
      fun p hp => hq p (List.mem_cons_of_mem _ hp)
    have htr : (rest.map Prod.snd).Pairwise (fun a b => a ≤ b) :=
      (List.pairwise_cons.mp ht).2
    have hnow : ∀ p ∈ rest, now ≤ p.2 :=
      fun p hp => (List.pairwise_cons.mp ht).1 p.2 (List.mem_map_of_mem Prod.snd hp)
    have hctHead : ∀ r ∈ s.rows, r.created_at ≤ now :=
      fun r hr => hct r hr (op, now) (List.mem_cons_self _ _)
    have hctr : ∀ r ∈ s.rows, ∀ p ∈ rest, r.created_at ≤ p.2 :=
      fun r hr p hp => hct r hr p (List.mem_cons_of_mem _ hp)
    have hlbtr : ∀ p ∈ rest, lb ≤ p.2 :=
      fun p hp => hlbt p (List.mem_cons_of_mem _ hp)
    have hlbnow : lb ≤ now := hlbt (op, now) (List.mem_cons_self _ _)
    cases op with
    | enqueue c =>
      have hidInv : IdInv (add_task c now s).2 := idInv_add c now ⟨hids, hbound⟩
      refine ih (add_task c now s).2 lb k hqr htr hidInv.1 ?_ hidInv.2 ?_ hlbtr ?_ ?_
        (Nat.lt_trans hkn (Nat.lt_succ_self _))
      · rw [show (add_task c now s).2.rows = s.rows ++
          [{ id := s.nextId, cert_number := c, status := Status.pending,
             error_message := none, created_at := now, started_at := none,
             completed_at := none }] from rfl, List.pairwise_append]
        refine ⟨hcr, by simp, ?_⟩
        intro a ha b hb
        rcases List.mem_singleton.mp hb with rfl
        exact hctHead a ha
      · intro r hr p hp
        rcases List.mem_append.mp hr with hm | hm
        · exact hctr r hm p hp
        · rcases List.mem_singleton.mp hm with rfl
          exact hnow p hp
      · intro r hr hp
        rcases List.mem_append.mp hr with hm | hm
        · exact hlb r hm hp
        · rcases List.mem_singleton.mp hm with rfl
          exact hlbnow
      · intro r hr hid
        rcases List.mem_append.mp hr with hm | hm
        · exact hk r hm hid
        · rcases List.mem_singleton.mp hm with rfl
          exact absurd (Nat.lt_of_le_of_lt hid hkn) (Nat.lt_irrefl _)
    | claim =>
      cases hsel : selectOldestPending s.rows with
      | none =>
        have hrw : runOps ((TaskOp.claim, now) :: rest) s = runOps rest s := by
          simp [runOps, get_pending_task, hsel]
        rw [hrw]
        exact ih s lb k hqr htr hids hcr hbound hctr hlbtr hlb hk hkn
      | some t =>
        obtain ⟨htmem, htpend⟩ := selectOldestPending_mem hsel
        have htmin := selectOldestPending_min hsel
        have hfind := select_eq_first_pending s.rows hcr
        rw [hsel] at hfind
        obtain ⟨l₁, l₂, hsplit, hl₁, _⟩ := find?_split hfind.symm
        have hid' := hsplit ▸ hids
        obtain ⟨_, p₂, cross⟩ := List.pairwise_append.mp hid'
        have hafter := (List.pairwise_cons.mp p₂).1
        have hlow : ∀ a ∈ s.rows, a.id < t.id → a.status ≠ Status.pending := by
          intro a ha halt
          rw [hsplit] at ha
          rcases List.mem_append.mp ha with hm | hm
          · exact of_decide_eq_false (hl₁ a hm)
          · rcases List.mem_cons.mp hm with rfl | hm2
            · exact absurd halt (Nat.lt_irrefl _)
            · exact absurd halt (Nat.lt_asymm (hafter a hm2))
        have hkt : k < t.id := by
          rcases Nat.lt_or_ge k t.id with hlt | hge
          · exact hlt
          · exact absurd htpend (hk t htmem hge)
        have hrw1 : (runOps ((TaskOp.claim, now) :: rest) s).1 =
            (runOps rest { s with rows := s.rows.map (markRunning t.id now) }).1 := by
          simp [runOps, get_pending_task, hsel]
        have hrw2 : (runOps ((TaskOp.claim, now) :: rest) s).2 =
            t :: (runOps rest { s with rows := s.rows.map (markRunning t.id now) }).2 := by
          simp [runOps, get_pending_task, hsel]
        have hidInv : IdInv { s with rows := s.rows.map (markRunning t.id now) } :=
          idInv_mark t now ⟨hids, hbound⟩
        obtain ⟨hall, hp1, hp2⟩ := ih { s with rows := s.rows.map (markRunning t.id now) }
          t.created_at t.id hqr htr hidInv.1
          (by
            rw [List.pairwise_map]
            refine hcr.imp ?_
            intro a b hab
            rw [markRunning_created, markRunning_created]
            exact hab)
          hidInv.2
          (by
            intro r hr p hp
            obtain ⟨a, ha, rfl⟩ := List.mem_map.mp hr
            rw [markRunning_created]
            exact hctr a ha p hp)
          (by
            intro p hp
            exact Nat.le_trans (hctHead t htmem) (hnow p hp))
          (by
            intro r hr hp
            obtain ⟨a, ha, rfl⟩ := List.mem_map.mp hr
            by_cases hc : a.id = t.id
            · have hat : a = t := unique_by_id hids ha htmem hc
              subst hat
              rw [markRunning_self now a] at hp
              exact absurd hp (fun hcontr => Status.noConfusion hcontr)
            · rw [markRunning_ne hc] at hp ⊢
              exact htmin a ha hp)
          (by
            intro r hr hid
            obtain ⟨a, ha, rfl⟩ := List.mem_map.mp hr
            by_cases hc : a.id = t.id
            · have hat : a = t := unique_by_id hids ha htmem hc
              subst hat
              rw [markRunning_self now a]
              intro hcontr
              exact Status.noConfusion hcontr
            · rw [markRunning_ne hc] at hid ⊢
              exact hlow a ha (Nat.lt_of_le_of_ne hid hc))
          (hbound t htmem)
        rw [hrw2]
        refine ⟨?_, ?_, ?_⟩
        · intro c hc
          rcases List.mem_cons.mp hc with rfl | hc2
          · exact ⟨hlb c htmem htpend, hkt⟩
          · obtain ⟨h1, h2⟩ := hall c hc2
            exact ⟨Nat.le_trans (hlb t htmem htpend) h1, Nat.lt_trans hkt h2⟩
        · rw [List.pairwise_cons]
          exact ⟨fun c hc => (hall c hc).1, hp1⟩
        · rw [List.pairwise_cons]
          exact ⟨fun c hc => (hall c hc).2, hp2⟩
    | complete i b e =>
      have h0 := hq (TaskOp.complete i b e, now) (List.mem_cons_self _ _)
      simp [isQueueOp] at h0
    | delete i =>
      have h0 := hq (TaskOp.delete i, now) (List.mem_cons_self _ _)
      simp [isQueueOp] at h0
    | clearTerminal =>
      have h0 := hq (TaskOp.clearTerminal, now) (List.mem_cons_self _ _)
      simp [isQueueOp] at h0

/-- C2: over any sequence of enqueue and claim calls with nondecreasing
wall-clock times, the tasks returned by `claim_next` come in
non-decreasing creation order (FIFO), and no task is ever returned
twice. -/
theorem claim_fifo (trace : List (TaskOp × Nat))
    (hq : ∀ p ∈ trace, isQueueOp p.1 = true)
    (ht : (trace.map Prod.snd).Pairwise (fun a b => a ≤ b)) :
    (runOps trace initTaskState).2.Pairwise (fun a b => a.created_at ≤ b.created_at) ∧
    (runOps trace initTaskState).2.Pairwise (fun a b => a ≠ b) := by
  have h := runOps_fifo_aux trace initTaskState 0 0 hq ht List.Pairwise.nil
    List.Pairwise.nil (fun r hr => absurd hr (by simp [initTaskState]))
    (fun r hr => absurd hr (by simp [initTaskState])) (fun p _ => Nat.zero_le _)
    (fun r hr => absurd hr (by simp [initTaskState]))
    (fun r hr => absurd hr (by simp [initTaskState])) Nat.zero_lt_one
  refine ⟨h.2.1, h.2.2.imp ?_⟩
  intro a b hab heq
  exact Nat.ne_of_lt hab (congrArg Task.id heq)

/-- Witness for C2 on a concrete seven-step enqueue/claim trace with an
equal-timestamp enqueue pair. -/
theorem claim_fifo_witness :
    (∀ p ∈ cw2Trace, isQueueOp p.1 = true) ∧
    ((cw2Trace.map Prod.snd).Pairwise (fun a b => a ≤ b)) ∧
    ((runOps cw2Trace initTaskState).2.Pairwise
        (fun a b => a.created_at ≤ b.created_at) ∧
      (runOps cw2Trace initTaskState).2.Pairwise (fun a b => a ≠ b)) :=
  ⟨by decide, by decide, claim_fifo cw2Trace (by decide) (by decide)⟩

end Pcgs
